import Mathlib

/-!
# Verification of the imap-codec core against its specification

Shallow embedding of the validated-primitive layer
(`imap-types/src/rfc3501/core.rs`), the SORT extension
(`imap-types/src/extensions/sort.rs`), the COMPRESS sub-parser
(`src/extensions/compress.rs`), and a spec-modelled greeting/command
codec.  Strings are embedded as lists of byte values (`List Nat`);
Rust's `Cow<'a, str>` / `Cow<'a, [u8]>` is embedded as an explicit
borrowed/owned sum whose equality, like Rust's, compares the content.
`Result<T, ()>` is embedded as `RsResult Unit T`.
-/

namespace ImapCodec

/-- Rust's `Cow`: a carrier that is either borrowed from the input buffer
or owned.  `PartialEq`/`Hash` on `Cow` delegate to the pointed-to content,
which the embedding mirrors via `Cow.content`. -/
inductive Cow (α : Type) : Type
  | borrowed (v : α)
  | owned (v : α)
  deriving DecidableEq, Repr

/-- The content a `Cow` dereferences to (Rust's `Deref`/`Borrow`). -/
def Cow.content {α : Type} : Cow α → α
  | .borrowed v => v
  | .owned v => v

/-- Rust's `Result<T, E>`; the core types all use `E = ()`. -/
inductive RsResult (ε α : Type) : Type
  | ok (v : α)
  | err (e : ε)
  deriving DecidableEq, Repr

/-- `Result::is_ok`. -/
def RsResult.isOk {ε α : Type} : RsResult ε α → Bool
  | .ok _ => true
  | .err _ => false

/-! ## Character classes (`utils/indicators`)

The predicate module is not part of the sources at hand; each predicate
below is modelled from the spec's character-class table (§3.1) and the
RFC 3501 ABNF it cites. -/

/-- Modelled from the spec: CTL = `%x00-1F / %x7F`. -/
def is_ctl (b : Nat) : Bool :=
  decide (b ≤ 31 ∨ b = 127)

/-- Modelled from the spec: atom-specials are `(`, `)`, `{`, SP, CTL,
the list wildcards `%` `*`, the quoted-specials `"` `\`, and the
resp-special `]`. -/
def is_atom_special (b : Nat) : Bool :=
  b == 40 || b == 41 || b == 123 || b == 32 || is_ctl b ||
  b == 37 || b == 42 || b == 34 || b == 92 || b == 93

/-- Modelled from the spec: ATOM-CHAR = any 7-bit CHAR (`%x01-7F`)
that is not an atom-special. -/
def is_atom_char (b : Nat) : Bool :=
  decide (1 ≤ b ∧ b ≤ 127) && !is_atom_special b

/-- Modelled from the spec: ASTRING-CHAR = ATOM-CHAR ∪ resp-specials (`]`). -/
def is_astring_char (b : Nat) : Bool :=
  is_atom_char b || b == 93

/-- Modelled from the spec: TEXT-CHAR = any CHAR (`%x01-7F`) except CR and LF. -/
def is_text_char (b : Nat) : Bool :=
  decide (1 ≤ b ∧ b ≤ 127) && b != 13 && b != 10

/-- Modelled from the spec: CHAR8 = `%x01-FF`, i.e. any octet except NUL. -/
def is_char8 (b : Nat) : Bool :=
  decide (1 ≤ b ∧ b ≤ 255)

/-- Modelled from the spec: the quoted-specials `"` and `\`. -/
def is_quoted_specials (b : Nat) : Bool :=
  b == 34 || b == 92

/-- Modelled from the spec: TEXT-CHAR without the quoted-specials. -/
def is_any_text_char_except_quoted_specials (b : Nat) : Bool :=
  is_text_char b && !is_quoted_specials b

/-! ## Validated primitives (`rfc3501/core.rs`) -/

/-- `Atom<'a>`: wrapper around a `Cow<'a, str>` carrier. -/
structure Atom : Type where
  inner : Cow (List Nat)
  deriving DecidableEq, Repr

/-- `Atom::verify`: non-empty and every byte an ATOM-CHAR. -/
def Atom.verify (value : List Nat) : Bool :=
  !value.isEmpty && value.all is_atom_char

/-- `TryFrom<&'a str> for Atom<'a>` (borrows on success). -/
def Atom.tryFromStr (value : List Nat) : RsResult Unit Atom :=
  if Atom.verify value then .ok ⟨.borrowed value⟩ else .err ()

/-- `TryFrom<String> for Atom<'a>` (owns on success). -/
def Atom.tryFromString (value : List Nat) : RsResult Unit Atom :=
  if Atom.verify value then .ok ⟨.owned value⟩ else .err ()

/-- `AtomExt<'a>`. -/
structure AtomExt : Type where
  inner : Cow (List Nat)
  deriving DecidableEq, Repr

/-- `AtomExt::verify`: non-empty and every byte an ASTRING-CHAR. -/
def AtomExt.verify (value : List Nat) : Bool :=
  !value.isEmpty && value.all is_astring_char

/-- `TryFrom<&'a str> for AtomExt<'a>`. -/
def AtomExt.tryFromStr (value : List Nat) : RsResult Unit AtomExt :=
  if AtomExt.verify value then .ok ⟨.borrowed value⟩ else .err ()

/-- `TryFrom<String> for AtomExt<'a>`. -/
def AtomExt.tryFromString (value : List Nat) : RsResult Unit AtomExt :=
  if AtomExt.verify value then .ok ⟨.owned value⟩ else .err ()

/-- `Literal<'a>`: wrapper around a `Cow<'a, [u8]>` carrier. -/
structure Literal : Type where
  inner : Cow (List Nat)
  deriving DecidableEq, Repr

/-- `Literal::verify`: every byte is a CHAR8 (note: the length is not
inspected). -/
def Literal.verify (bytes : List Nat) : Bool :=
  bytes.all is_char8

/-- `TryFrom<&'a [u8]> for Literal<'a>`. -/
def Literal.tryFromBytes (value : List Nat) : RsResult Unit Literal :=
  if Literal.verify value then .ok ⟨.borrowed value⟩ else .err ()

/-- `TryFrom<Vec<u8>> for Literal<'a>`. -/
def Literal.tryFromVec (value : List Nat) : RsResult Unit Literal :=
  if Literal.verify value then .ok ⟨.owned value⟩ else .err ()

/-- `Quoted<'a>`. -/
structure Quoted : Type where
  inner : Cow (List Nat)
  deriving DecidableEq, Repr

/-- `Quoted::verify`: `value.chars().all(|c| c.is_ascii() && is_text_char(c as u8))`.
On the byte-level embedding a char is ASCII exactly when its (single)
UTF-8 byte is `≤ 127`, so the check is per byte. -/
def Quoted.verify (value : List Nat) : Bool :=
  value.all fun b => decide (b ≤ 127) && is_text_char b

/-- `TryFrom<&'a str> for Quoted<'a>`. -/
def Quoted.tryFromStr (value : List Nat) : RsResult Unit Quoted :=
  if Quoted.verify value then .ok ⟨.borrowed value⟩ else .err ()

/-- `TryFrom<String> for Quoted<'a>`. -/
def Quoted.tryFromString (value : List Nat) : RsResult Unit Quoted :=
  if Quoted.verify value then .ok ⟨.owned value⟩ else .err ()

/-- `IString<'a> = Literal | Quoted`. -/
inductive IString : Type
  | literal (l : Literal)
  | quoted (q : Quoted)
  deriving DecidableEq, Repr

/-- `TryFrom<&'a str> for IString<'a>`: quoted if possible, else literal,
else failure. -/
def IString.tryFromStr (value : List Nat) : RsResult Unit IString :=
  match Quoted.tryFromStr value with
  | .ok q => .ok (.quoted q)
  | .err _ =>
    match Literal.tryFromBytes value with
    | .ok l => .ok (.literal l)
    | .err _ => .err ()

/-- `TryFrom<String> for IString<'a>`: same selection on the owned path. -/
def IString.tryFromString (value : List Nat) : RsResult Unit IString :=
  match Quoted.tryFromString value with
  | .ok q => .ok (.quoted q)
  | .err _ =>
    match Literal.tryFromVec value with
    | .ok l => .ok (.literal l)
    | .err _ => .err ()

/-- `Tag<'a>`. -/
structure Tag : Type where
  inner : Cow (List Nat)
  deriving DecidableEq, Repr

/-- `Tag::verify`: non-empty, every byte an ASTRING-CHAR other than `+`. -/
def Tag.verify (value : List Nat) : Bool :=
  !value.isEmpty && value.all fun c => is_astring_char c && c != 43

/-- `TryFrom<&'a str> for Tag<'a>`. -/
def Tag.tryFromStr (value : List Nat) : RsResult Unit Tag :=
  if Tag.verify value then .ok ⟨.borrowed value⟩ else .err ()

/-- `TryFrom<String> for Tag<'a>`. -/
def Tag.tryFromString (value : List Nat) : RsResult Unit Tag :=
  if Tag.verify value then .ok ⟨.owned value⟩ else .err ()

/-- `Text<'a>`. -/
structure Text : Type where
  inner : Cow (List Nat)
  deriving DecidableEq, Repr

/-- `Text::verify`: non-empty and every byte a TEXT-CHAR. -/
def Text.verify (value : List Nat) : Bool :=
  !value.isEmpty && value.all is_text_char

/-- `TryFrom<&'a str> for Text<'a>`. -/
def Text.tryFromStr (value : List Nat) : RsResult Unit Text :=
  if Text.verify value then .ok ⟨.borrowed value⟩ else .err ()

/-- `TryFrom<String> for Text<'a>`. -/
def Text.tryFromString (value : List Nat) : RsResult Unit Text :=
  if Text.verify value then .ok ⟨.owned value⟩ else .err ()

/-- `QuotedChar`: a single char carrier (embedded as its scalar value). -/
structure QuotedChar : Type where
  inner : Nat
  deriving DecidableEq, Repr

/-- `QuotedChar::verify`: ASCII and (TEXT-CHAR-minus-quoted-specials or
`\` or `"`). -/
def QuotedChar.verify (input : Nat) : Bool :=
  if input ≤ 127 then
    is_any_text_char_except_quoted_specials input || input == 92 || input == 34
  else
    false

/-- `TryFrom<char> for QuotedChar`. -/
def QuotedChar.tryFromChar (value : Nat) : RsResult Unit QuotedChar :=
  if QuotedChar.verify value then .ok ⟨value⟩ else .err ()

/-- `Charset<'a> = Atom | Quoted`. -/
inductive Charset : Type
  | atom (a : Atom)
  | quoted (q : Quoted)
  deriving DecidableEq, Repr

/-- `TryFrom<&'a str> for Charset<'a>`: atom if possible, else quoted. -/
def Charset.tryFromStr (value : List Nat) : RsResult Unit Charset :=
  match Atom.tryFromStr value with
  | .ok a => .ok (.atom a)
  | .err _ =>
    match Quoted.tryFromStr value with
    | .ok q => .ok (.quoted q)
    | .err _ => .err ()

/-! ## Content equality and hashing

The Rust types derive `PartialEq`/`Hash`, which on a `Cow` carrier
compare/hash the dereferenced content.  Hashing is parametric in the
caller-supplied `Hasher`, embedded as a function on the content. -/

/-- Derived `PartialEq` for `Atom`: content comparison through `Cow`. -/
def Atom.beq (a b : Atom) : Bool :=
  a.inner.content == b.inner.content

/-- Derived `Hash` for `Atom`, parametric in the hasher. -/
def Atom.hashWith (hasher : List Nat → Nat) (a : Atom) : Nat :=
  hasher a.inner.content

/-- Derived `PartialEq` for `AtomExt`. -/
def AtomExt.beq (a b : AtomExt) : Bool :=
  a.inner.content == b.inner.content

/-- Derived `Hash` for `AtomExt`. -/
def AtomExt.hashWith (hasher : List Nat → Nat) (a : AtomExt) : Nat :=
  hasher a.inner.content

/-- Derived `PartialEq` for `Quoted`. -/
def Quoted.beq (a b : Quoted) : Bool :=
  a.inner.content == b.inner.content

/-- Derived `Hash` for `Quoted`. -/
def Quoted.hashWith (hasher : List Nat → Nat) (a : Quoted) : Nat :=
  hasher a.inner.content

/-- Derived `PartialEq` for `Literal`. -/
def Literal.beq (a b : Literal) : Bool :=
  a.inner.content == b.inner.content

/-- Derived `Hash` for `Literal`. -/
def Literal.hashWith (hasher : List Nat → Nat) (a : Literal) : Nat :=
  hasher a.inner.content

/-- Derived `PartialEq` for `Tag`. -/
def Tag.beq (a b : Tag) : Bool :=
  a.inner.content == b.inner.content

/-- Derived `Hash` for `Tag`. -/
def Tag.hashWith (hasher : List Nat → Nat) (a : Tag) : Nat :=
  hasher a.inner.content

/-- Derived `PartialEq` for `Text`. -/
def Text.beq (a b : Text) : Bool :=
  a.inner.content == b.inner.content

/-- Derived `Hash` for `Text`. -/
def Text.hashWith (hasher : List Nat → Nat) (a : Text) : Nat :=
  hasher a.inner.content

/-! ## `Tag::random`

`[0u8; 8].map(|_| rng.sample(Alphanumeric))`: eight draws from the
`rand` crate's `Alphanumeric` distribution, which by its definition
yields characters of `A-Z a-z 0-9`.  The random source is embedded as an
arbitrary stream `g : Nat → Nat` of draws; each draw selects an element
of the 62-character alphabet. -/

/-- The 62-character alphabet sampled by `Alphanumeric`
(`A-Z`, `a-z`, `0-9`, as byte values). -/
def alnumCharset : List Nat :=
  ((List.range 26).map fun i => i + 65) ++
    ((List.range 26).map fun i => i + 97) ++
    ((List.range 10).map fun i => i + 48)

/-- One `Alphanumeric` sample, given a raw draw from the source. -/
def sampleAlphanumeric (draw : Nat) : Nat :=
  alnumCharset.getD (draw % 62) 65

/-- `Tag::random`: eight `Alphanumeric` samples, wrapped unchecked into an
owned carrier. -/
def Tag.random (g : Nat → Nat) : Tag :=
  ⟨.owned (List.ofFn fun i : Fin 8 => sampleAlphanumeric (g i.val))⟩

/-- ASCII alphanumeric test (for stating what `Tag::random` produces). -/
def isAlphanumericByte (b : Nat) : Bool :=
  decide ((65 ≤ b ∧ b ≤ 90) ∨ (97 ≤ b ∧ b ≤ 122) ∨ (48 ≤ b ∧ b ≤ 57))

/-! ## SORT extension (`imap-types/src/extensions/sort.rs`) -/

/-- `SortAlgorithmOther<'a>(Atom<'a>)`. -/
structure SortAlgorithmOther : Type where
  atom : Atom
  deriving DecidableEq, Repr

/-- `SortAlgorithm<'a> = Display | Other(SortAlgorithmOther)`. -/
inductive SortAlgorithm : Type
  | display
  | other (o : SortAlgorithmOther)
  deriving DecidableEq, Repr

/-- ASCII lowercasing of one byte.  The source calls Unicode
`str::to_lowercase`, which agrees with ASCII lowercasing on the 7-bit
carriers that `Atom::verify` admits. -/
def toLowerByte (b : Nat) : Nat :=
  if 65 ≤ b ∧ b ≤ 90 then b + 32 else b

/-- The bytes of `"display"`. -/
def displayLowerBytes : List Nat := [100, 105, 115, 112, 108, 97, 121]

/-- The bytes of `"DISPLAY"`. -/
def displayUpperBytes : List Nat := [68, 73, 83, 80, 76, 65, 89]

/-- `From<Atom<'a>> for SortAlgorithm<'a>`: `Display` when the lowercased
content is `"display"`, otherwise `Other` keeping the atom. -/
def SortAlgorithm.fromAtom (value : Atom) : SortAlgorithm :=
  if value.inner.content.map toLowerByte = displayLowerBytes then
    .display
  else
    .other ⟨value⟩

/-- `Display for SortAlgorithm`: the bytes written by `fmt`. -/
def SortAlgorithm.fmtBytes : SortAlgorithm → List Nat
  | .display => displayUpperBytes
  | .other o => o.atom.inner.content

/-! ## COMPRESS extension (`src/extensions/compress.rs`)

The sub-parsers are nom combinators over `&[u8]` in streaming mode.
`tag_no_case` compares ASCII-case-insensitively; a mismatch is an
`Error` whose position is the start of the slice the combinator was
applied to, and an input that is a proper (case-insensitive) prefix of
the keyword is `Incomplete`. -/

/-- Result of a nom streaming parser: success with remainder, need for
more input, or an error at an absolute byte offset. -/
inductive NomResult (α : Type) : Type
  | ok (rem : List Nat) (val : α)
  | incomplete (needed : Nat)
  | err (offset : Nat)
  deriving DecidableEq, Repr

/-- Outcome of matching one keyword. -/
inductive KwRes : Type
  | matched (rest : List Nat)
  | mismatch
  | short (needed : Nat)
  deriving DecidableEq, Repr

/-- nom's streaming `tag_no_case`: ASCII-case-insensitive keyword match. -/
def tagNoCase : List Nat → List Nat → KwRes
  | [], input => .matched input
  | p :: ps, [] => .short (p :: ps).length
  | p :: ps, b :: bs =>
    if toLowerByte b = toLowerByte p then tagNoCase ps bs else .mismatch

/-- `CompressionAlgorithm` (from `imap-types/extensions/compress`,
re-exported by the file at hand; `Deflate` is its only variant). -/
inductive CompressionAlgorithm : Type
  | deflate
  deriving DecidableEq, Repr

/-- The fragment of `CommandBody` exercised by the COMPRESS extension. -/
inductive CommandBody : Type
  | compress (algorithm : CompressionAlgorithm)
  deriving DecidableEq, Repr

/-- The bytes of `"COMPRESS "` (keyword plus the single SP). -/
def compressSpBytes : List Nat := [67, 79, 77, 80, 82, 69, 83, 83, 32]

/-- The bytes of `"DEFLATE"`. -/
def deflateBytes : List Nat := [68, 69, 70, 76, 65, 84, 69]

/-- `algorithm = "DEFLATE"`: `value(Deflate, tag_no_case("DEFLATE"))`.
Offsets are relative to the slice this combinator receives. -/
def algorithm (input : List Nat) : NomResult CompressionAlgorithm :=
  match tagNoCase deflateBytes input with
  | .matched rest => .ok rest .deflate
  | .mismatch => .err 0
  | .short n => .incomplete n

/-- `compress = "COMPRESS" SP algorithm`:
`map(preceded(tag_no_case("COMPRESS "), algorithm), ...)`.
Error offsets are made absolute in the received input. -/
def compress (input : List Nat) : NomResult CommandBody :=
  match tagNoCase compressSpBytes input with
  | .matched r1 =>
    match algorithm r1 with
    | .ok r2 a => .ok r2 (.compress a)
    | .incomplete n => .incomplete n
    | .err k => .err (input.length - r1.length + k)
  | .mismatch => .err 0
  | .short n => .incomplete n

/-- `Encoder for CompressionAlgorithm`: writes `DEFLATE`. -/
def CompressionAlgorithm.encode : CompressionAlgorithm → List Nat
  | .deflate => deflateBytes

/-! ## Greeting codec

Modelled from the spec: the greeting parser/encoder of the repository is
not among the sources at hand (only its fuzz harness is), so the model
below follows the spec's wire format
`* SP (OK|PREAUTH|BYE) SP [ "[" <code> "]" SP] <text> CRLF`
(§6.1), its data model `Greeting = { kind: Ok|PreAuth|Bye, code?, text }`
(§3.2), its tokenisation rules (case-insensitive keywords, single SP,
CRLF line ends, §4.3), and canonical-uppercase encoding (§4.4). -/

/-- Modelled from the spec: the greeting kind `Ok | PreAuth | Bye`. -/
inductive GreetingKind : Type
  | ok
  | preAuth
  | bye
  deriving DecidableEq, Repr

/-- Modelled from the spec: a representative subset of the response
codes (§3.2 lists them as an open enumeration `ALERT`, `PARSE`,
`READ-ONLY`, `READ-WRITE`, `TRYCREATE`, `UIDNEXT`, `UIDVALIDITY`,
`UNSEEN`, …); the list- and URI-carrying codes of that enumeration are
outside this model. -/
inductive Code : Type
  | alert
  | parseCode
  | readOnly
  | readWrite
  | tryCreate
  | uidNext (n : Nat)
  | uidValidity (n : Nat)
  | unseen (n : Nat)
  deriving DecidableEq, Repr

/-- Modelled from the spec:
`Greeting = { kind: Ok|PreAuth|Bye, code?, text }`; the text carrier is
the byte content of a `Text`. -/
structure Greeting : Type where
  kind : GreetingKind
  code : Option Code
  text : List Nat
  deriving DecidableEq, Repr

/-- Well-formedness of a code: numeric payloads are nz-numbers fitting
the 32-bit protocol counter. -/
def Code.wf : Code → Bool
  | .alert | .parseCode | .readOnly | .readWrite | .tryCreate => true
  | .uidNext n | .uidValidity n | .unseen n => decide (0 < n ∧ n < 2 ^ 32)

/-- Well-formedness of a greeting: the text satisfies `Text::verify` and
the code (if any) is well-formed. -/
def Greeting.wf (g : Greeting) : Bool :=
  Text.verify g.text && (match g.code with | none => true | some c => c.wf)

/-- Big-endian ASCII decimal digits of `n` (the canonical form the
encoder emits). -/
def digitsOf (n : Nat) : List Nat :=
  if n < 10 then [n + 48] else digitsOf (n / 10) ++ [n % 10 + 48]
termination_by n
decreasing_by exact Nat.div_lt_self (by omega) (by omega)

/-- Keyword bytes of a greeting kind (canonical uppercase). -/
def GreetingKind.encode : GreetingKind → List Nat
  | .ok => [79, 75]
  | .preAuth => [80, 82, 69, 65, 85, 84, 72]
  | .bye => [66, 89, 69]

/-- Keyword-and-payload bytes of a response code (canonical uppercase). -/
def Code.encode : Code → List Nat
  | .alert => [65, 76, 69, 82, 84]
  | .parseCode => [80, 65, 82, 83, 69]
  | .readOnly => [82, 69, 65, 68, 45, 79, 78, 76, 89]
  | .readWrite => [82, 69, 65, 68, 45, 87, 82, 73, 84, 69]
  | .tryCreate => [84, 82, 89, 67, 82, 69, 65, 84, 69]
  | .uidNext n => [85, 73, 68, 78, 69, 88, 84, 32] ++ digitsOf n
  | .uidValidity n => [85, 73, 68, 86, 65, 76, 73, 68, 73, 84, 89, 32] ++ digitsOf n
  | .unseen n => [85, 78, 83, 69, 69, 78, 32] ++ digitsOf n

/-- The optional bracketed-code-plus-SP segment of a greeting. -/
def codeSegment : Option Code → List Nat
  | none => []
  | some c => 91 :: (c.encode ++ [93, 32])

/-- Modelled from the spec: greeting encoder,
`* SP <kind> SP [ "[" <code> "]" SP] <text> CRLF`. -/
def Greeting.encode (g : Greeting) : List Nat :=
  42 :: 32 :: (g.kind.encode ++ 32 :: (codeSegment g.code ++ (g.text ++ [13, 10])))

/-- Case-insensitive keyword match returning the remainder
(no needed-bytes accounting; the greeting model parses complete lines). -/
def matchCI : List Nat → List Nat → Option (List Nat)
  | [], input => some input
  | _ :: _, [] => none
  | p :: ps, b :: bs =>
    if toLowerByte b = toLowerByte p then matchCI ps bs else none

/-- Split the longest prefix satisfying `p` from the rest. -/
def takeWhileSplit (p : Nat → Bool) : List Nat → List Nat × List Nat
  | [] => ([], [])
  | b :: bs =>
    if p b then
      (b :: (takeWhileSplit p bs).1, (takeWhileSplit p bs).2)
    else
      ([], b :: bs)

/-- Accumulating decimal value of ASCII digit bytes. -/
def digitsVal (acc : Nat) (l : List Nat) : Nat :=
  l.foldl (fun a d => a * 10 + (d - 48)) acc

/-- ASCII digit test. -/
def isDigitByte (b : Nat) : Bool :=
  decide (48 ≤ b ∧ b ≤ 57)

/-- Parse an nz-number fitting the 32-bit protocol counter. -/
def parseNzNumber (input : List Nat) : Option (List Nat × Nat) :=
  if (takeWhileSplit isDigitByte input).1.isEmpty then none
  else
    let n := digitsVal 0 (takeWhileSplit isDigitByte input).1
    if 0 < n ∧ n < 2 ^ 32 then some ((takeWhileSplit isDigitByte input).2, n)
    else none

/-- Parse a response code keyword (and numeric payload where present). -/
def parseCode (input : List Nat) : Option (List Nat × Code) :=
  match matchCI [65, 76, 69, 82, 84] input with
  | some r => some (r, .alert)
  | none =>
  match matchCI [80, 65, 82, 83, 69] input with
  | some r => some (r, .parseCode)
  | none =>
  match matchCI [82, 69, 65, 68, 45, 79, 78, 76, 89] input with
  | some r => some (r, .readOnly)
  | none =>
  match matchCI [82, 69, 65, 68, 45, 87, 82, 73, 84, 69] input with
  | some r => some (r, .readWrite)
  | none =>
  match matchCI [84, 82, 89, 67, 82, 69, 65, 84, 69] input with
  | some r => some (r, .tryCreate)
  | none =>
  match matchCI [85, 73, 68, 78, 69, 88, 84, 32] input with
  | some r => (parseNzNumber r).map fun p => (p.1, .uidNext p.2)
  | none =>
  match matchCI [85, 73, 68, 86, 65, 76, 73, 68, 73, 84, 89, 32] input with
  | some r => (parseNzNumber r).map fun p => (p.1, .uidValidity p.2)
  | none =>
  match matchCI [85, 78, 83, 69, 69, 78, 32] input with
  | some r => (parseNzNumber r).map fun p => (p.1, .unseen p.2)
  | none => none

/-- Parse a bracketed `[<code>] ` segment (backtracked by the caller when
it fails, as nom's `opt` does). -/
def parseCodeBr (input : List Nat) : Option (List Nat × Code) :=
  match input with
  | b :: r1 =>
    if b = 91 then
      match parseCode r1 with
      | some (r2, c) =>
        match r2 with
        | x :: y :: r3 => if x = 93 ∧ y = 32 then some (r3, c) else none
        | _ => none
      | none => none
    else none
  | [] => none

/-- Parse `<text> CRLF` (1*TEXT-CHAR up to the line end). -/
def parseTextLine (input : List Nat) : Option (List Nat × List Nat) :=
  if (takeWhileSplit is_text_char input).1.isEmpty then none
  else
    match (takeWhileSplit is_text_char input).2 with
    | x :: y :: r =>
      if x = 13 ∧ y = 10 then some (r, (takeWhileSplit is_text_char input).1)
      else none
    | _ => none

/-- Parse the greeting kind keyword. -/
def parseKind (input : List Nat) : Option (List Nat × GreetingKind) :=
  match matchCI [79, 75] input with
  | some r => some (r, .ok)
  | none =>
  match matchCI [80, 82, 69, 65, 85, 84, 72] input with
  | some r => some (r, .preAuth)
  | none =>
  match matchCI [66, 89, 69] input with
  | some r => some (r, .bye)
  | none => none

/-- Modelled from the spec: greeting parser for
`* SP (OK|PREAUTH|BYE) SP [ "[" <code> "]" SP] <text> CRLF`;
trailing bytes are returned as the remainder. -/
def parseGreeting (input : List Nat) : Option (List Nat × Greeting) :=
  match input with
  | a :: b :: r1 =>
    if a = 42 ∧ b = 32 then
      match parseKind r1 with
      | some (r2, k) =>
        match r2 with
        | s :: r3 =>
          if s = 32 then
            match parseCodeBr r3 with
            | some (r4, c) =>
              (parseTextLine r4).map fun p => (p.1, ⟨k, some c, p.2⟩)
            | none =>
              (parseTextLine r3).map fun p => (p.1, ⟨k, none, p.2⟩)
          else none
        | [] => none
      | none => none
    else none
  | _ => none

/-! ## Command codec for COMPRESS

Modelled from the spec: the command-level wiring
(`<tag> SP <command-name> [SP <args>] CRLF`, §6.1) is not among the
sources at hand; the body keyword itself is parsed by `compress` and
encoded from `Encoder for CompressionAlgorithm` above, with canonical
uppercase keywords (§4.4). -/

/-- Modelled from the spec: `Command = { tag: Tag, body: CommandBody }`
(with the tag's byte carrier). -/
structure Command : Type where
  tag : List Nat
  body : CommandBody
  deriving DecidableEq, Repr

/-- Body encoder: `COMPRESS SP <algorithm>` with the algorithm bytes
written by `Encoder for CompressionAlgorithm`. -/
def CommandBody.encode : CommandBody → List Nat
  | .compress a => compressSpBytes ++ a.encode

/-- Modelled from the spec: command encoder `<tag> SP <body> CRLF`. -/
def Command.encode (c : Command) : List Nat :=
  c.tag ++ 32 :: (c.body.encode ++ [13, 10])

/-- A tag byte: ASTRING-CHAR other than `+`. -/
def isTagChar (b : Nat) : Bool :=
  is_astring_char b && b != 43

/-- Modelled from the spec: command parser — tag, SP, body (via the
`compress` combinator of the source), CRLF. -/
def parseCommand (input : List Nat) : Option (List Nat × Command) :=
  if (takeWhileSplit isTagChar input).1.isEmpty then none
  else
    match (takeWhileSplit isTagChar input).2 with
    | s :: r2 =>
      if s = 32 then
        match compress r2 with
        | .ok r3 body =>
          match r3 with
          | x :: y :: r4 =>
            if x = 13 ∧ y = 10 then
              some (r4, ⟨(takeWhileSplit isTagChar input).1, body⟩)
            else none
          | _ => none
        | _ => none
      else none
    | [] => none

/-- The NUL-free byte sequence of length `2 ^ 32` used to probe the
absent length bound of `Literal`. -/
def hugeNulFree : List Nat :=
  List.replicate (2 ^ 32) 65

/-! ## Helper lemmas -/

theorem rsResult_if_isOk {α : Type} (c : Bool) (a : α) :
    (if c then (RsResult.ok a : RsResult Unit α) else .err ()).isOk = c := by
  cases c <;> simp [RsResult.isOk]

theorem matchCI_append_self (pat rest : List Nat) :
    matchCI pat (pat ++ rest) = some rest := by
  induction pat with
  | nil => simp [matchCI]
  | cons p ps ih => simp [matchCI, ih]

theorem tagNoCase_append_self (pat rest : List Nat) :
    tagNoCase pat (pat ++ rest) = .matched rest := by
  induction pat with
  | nil => simp [tagNoCase]
  | cons p ps ih => simp [tagNoCase, ih]

theorem tagNoCase_matched_iff (pat : List Nat) :
    ∀ input rest : List Nat,
      tagNoCase pat input = .matched rest ↔
        ∃ p, input = p ++ rest ∧ p.map toLowerByte = pat.map toLowerByte := by
  induction pat with
  | nil =>
    intro input rest
    constructor
    · intro h
      have hir : input = rest := by simpa [tagNoCase] using h
      exact ⟨[], by simp [hir], by simp⟩
    · rintro ⟨p, hin, hmap⟩
      cases p with
      | nil => simp [tagNoCase, hin]
      | cons a as => simp at hmap
  | cons p ps ih =>
    intro input rest
    cases input with
    | nil =>
      constructor
      · intro h; simp [tagNoCase] at h
      · rintro ⟨q, hin, hmap⟩
        cases q with
        | nil => simp at hmap
        | cons a as => simp at hin
    | cons b bs =>
      by_cases hb : toLowerByte b = toLowerByte p
      · rw [show tagNoCase (p :: ps) (b :: bs) = tagNoCase ps bs by
          simp [tagNoCase, hb]]
        rw [ih bs rest]
        constructor
        · rintro ⟨q, hqs, hqmap⟩
          exact ⟨b :: q, by simp [hqs], by simp [hqmap, hb]⟩
        · rintro ⟨q, hin, hmap⟩
          cases q with
          | nil => simp at hmap
          | cons a as =>
            simp only [List.cons_append, List.cons.injEq] at hin
            simp only [List.map_cons, List.cons.injEq] at hmap
            exact ⟨as, hin.2, hmap.2⟩
      · rw [show tagNoCase (p :: ps) (b :: bs) = .mismatch by
          simp [tagNoCase, hb]]
        constructor
        · intro h; simp at h
        · rintro ⟨q, hin, hmap⟩
          cases q with
          | nil => simp at hmap
          | cons a as =>
            simp only [List.cons_append, List.cons.injEq] at hin
            simp only [List.map_cons, List.cons.injEq] at hmap
            refine absurd ?_ hb
            rw [hin.1]
            exact hmap.1

theorem takeWhileSplit_append (p : Nat → Bool) (l : List Nat) (b : Nat)
    (bs : List Nat) (hl : ∀ x ∈ l, p x = true) (hb : p b = false) :
    takeWhileSplit p (l ++ b :: bs) = (l, b :: bs) := by
  induction l with
  | nil => simp [takeWhileSplit, hb]
  | cons a as ih =>
    have ha : p a = true := hl a (by simp)
    have ih' := ih fun x hx => hl x (by simp [hx])
    simp only [List.cons_append, takeWhileSplit, ha, if_true, List.append_eq, ih']

theorem digitsVal_append (acc : Nat) (l1 l2 : List Nat) :
    digitsVal acc (l1 ++ l2) = digitsVal (digitsVal acc l1) l2 := by
  simp [digitsVal, List.foldl_append]

theorem digitsOf_spec (n : Nat) :
    (∀ x ∈ digitsOf n, isDigitByte x = true) ∧ digitsOf n ≠ [] ∧
      ∀ acc, digitsVal acc (digitsOf n) = acc * 10 ^ (digitsOf n).length + n := by
  induction n using Nat.strong_induction_on with
  | _ n ih =>
    by_cases h : n < 10
    · rw [digitsOf, if_pos h]
      refine ⟨?_, by simp, ?_⟩
      · intro x hx
        simp only [List.mem_singleton] at hx
        subst hx
        simp only [isDigitByte, decide_eq_true_eq]
        omega
      · intro acc
        simp only [digitsVal, List.foldl_cons, List.foldl_nil, List.length_cons,
          List.length_nil, pow_one, zero_add]
        omega
    · rw [digitsOf, if_neg h]
      have hlt : n / 10 < n := Nat.div_lt_self (by omega) (by omega)
      obtain ⟨hdig, hne, hval⟩ := ih (n / 10) hlt
      refine ⟨?_, by simp, ?_⟩
      · intro x hx
        rcases List.mem_append.mp hx with hx | hx
        · exact hdig x hx
        · simp only [List.mem_singleton] at hx
          subst hx
          simp only [isDigitByte, decide_eq_true_eq]
          omega
      · intro acc
        rw [digitsVal_append, hval acc, List.length_append]
        simp only [digitsVal, List.foldl_cons, List.foldl_nil, List.length_cons,
          List.length_nil]
        have h48 : n % 10 + 48 - 48 = n % 10 := by omega
        rw [h48]
        have hdm : 10 * (n / 10) + n % 10 = n := Nat.div_add_mod n 10
        calc (acc * 10 ^ (digitsOf (n / 10)).length + n / 10) * 10 + n % 10
            = acc * (10 ^ (digitsOf (n / 10)).length * 10) +
                (10 * (n / 10) + n % 10) := by ring
          _ = acc * 10 ^ ((digitsOf (n / 10)).length + (0 + 1)) + n := by
                rw [hdm, zero_add, pow_succ]

theorem parseNzNumber_digitsOf (n : Nat) (hn : 0 < n) (hn32 : n < 2 ^ 32)
    (b : Nat) (hb : isDigitByte b = false) (bs : List Nat) :
    parseNzNumber (digitsOf n ++ b :: bs) = some (b :: bs, n) := by
  obtain ⟨hdig, hne, hval⟩ := digitsOf_spec n
  have hsplit := takeWhileSplit_append isDigitByte (digitsOf n) b bs hdig hb
  have hval0 : digitsVal 0 (digitsOf n) = n := by simpa using hval 0
  rw [parseNzNumber, hsplit]
  simp only []
  rw [if_neg (by simpa [List.isEmpty_iff] using hne), hval0,
    if_pos (by exact ⟨hn, hn32⟩)]

theorem parseKind_encode (k : GreetingKind) (rest : List Nat) :
    parseKind (k.encode ++ 32 :: rest) = some (32 :: rest, k) := by
  cases k <;>
    simp [parseKind, GreetingKind.encode, matchCI, toLowerByte, matchCI_append_self]

theorem parseTextLine_append (t : List Nat) (ht : t ≠ [])
    (htc : ∀ x ∈ t, is_text_char x = true) (r : List Nat) :
    parseTextLine (t ++ 13 :: 10 :: r) = some (r, t) := by
  have hsplit := takeWhileSplit_append is_text_char t 13 (10 :: r) htc (by decide)
  rw [parseTextLine, hsplit]
  simp [List.isEmpty_iff, ht]

theorem parseCode_encode (c : Code) (hc : c.wf = true) (rest : List Nat) :
    parseCode (c.encode ++ 93 :: 32 :: rest) = some (93 :: 32 :: rest, c) := by
  cases c with
  | alert =>
    simp [parseCode, Code.encode, matchCI, toLowerByte, matchCI_append_self]
  | parseCode =>
    simp [parseCode, Code.encode, matchCI, toLowerByte, matchCI_append_self]
  | readOnly =>
    simp [parseCode, Code.encode, matchCI, toLowerByte, matchCI_append_self]
  | readWrite =>
    simp [parseCode, Code.encode, matchCI, toLowerByte, matchCI_append_self]
  | tryCreate =>
    simp [parseCode, Code.encode, matchCI, toLowerByte, matchCI_append_self]
  | uidNext n =>
    have hn : 0 < n ∧ n < 2 ^ 32 := by simpa [Code.wf] using hc
    rw [Code.encode, List.append_assoc]
    simp [parseCode, matchCI, toLowerByte, matchCI_append_self,
      parseNzNumber_digitsOf n hn.1 hn.2 93 (by decide) (32 :: rest)]
  | uidValidity n =>
    have hn : 0 < n ∧ n < 2 ^ 32 := by simpa [Code.wf] using hc
    rw [Code.encode, List.append_assoc]
    simp [parseCode, matchCI, toLowerByte, matchCI_append_self,
      parseNzNumber_digitsOf n hn.1 hn.2 93 (by decide) (32 :: rest)]
  | unseen n =>
    have hn : 0 < n ∧ n < 2 ^ 32 := by simpa [Code.wf] using hc
    rw [Code.encode, List.append_assoc]
    simp [parseCode, matchCI, toLowerByte, matchCI_append_self,
      parseNzNumber_digitsOf n hn.1 hn.2 93 (by decide) (32 :: rest)]

theorem parseCodeBr_encode (c : Code) (hc : c.wf = true) (rest : List Nat) :
    parseCodeBr (91 :: (c.encode ++ 93 :: 32 :: rest)) = some (rest, c) := by
  simp [parseCodeBr, parseCode_encode c hc rest]

theorem parseCodeBr_not_bracket (b : Nat) (hb : b ≠ 91) (bs : List Nat) :
    parseCodeBr (b :: bs) = none := by
  simp [parseCodeBr, hb]

/-- The spec-modelled greeting codec round-trips on every well-formed
greeting whose text does not start with `[` when no code is present. -/
theorem parseGreeting_encode (g : Greeting) (hw : g.wf = true)
    (hcode : g.code ≠ none ∨ g.text.head? ≠ some 91) :
    parseGreeting g.encode = some ([], g) := by
  obtain ⟨k, c, t⟩ := g
  simp only [Greeting.wf, Bool.and_eq_true] at hw
  obtain ⟨htext, hcwf⟩ := hw
  simp only [Text.verify, Bool.and_eq_true, List.all_eq_true] at htext
  have ht_ne : t ≠ [] := by
    intro h
    subst h
    simp at htext
  have ht_all : ∀ x ∈ t, is_text_char x = true := htext.2
  cases c with
  | none =>
    obtain ⟨x, ts, rfl⟩ : ∃ x ts, t = x :: ts := by
      cases t with
      | nil => exact absurd rfl ht_ne
      | cons a as => exact ⟨a, as, rfl⟩
    have hx : x ≠ 91 := by
      rcases hcode with h | h
      · exact absurd rfl h
      · simpa using h
    have hptl := parseTextLine_append (x :: ts) ht_ne ht_all []
    simp only [List.cons_append] at hptl
    simp [Greeting.encode, parseGreeting, codeSegment, parseKind_encode,
      parseCodeBr_not_bracket x hx, hptl]
  | some cc =>
    have hcwf' : cc.wf = true := by simpa using hcwf
    have hbr := parseCodeBr_encode cc hcwf' (t ++ [13, 10])
    have hptl := parseTextLine_append t ht_ne ht_all []
    simp [Greeting.encode, parseGreeting, codeSegment, parseKind_encode, hbr, hptl]

theorem parseCommand_encode (t : List Nat) (ht : Tag.verify t = true) :
    parseCommand (Command.encode ⟨t, .compress .deflate⟩) =
      some ([], ⟨t, .compress .deflate⟩) := by
  simp only [Tag.verify, Bool.and_eq_true, List.all_eq_true] at ht
  have ht_ne : t ≠ [] := by
    intro h
    subst h
    simp at ht
  have ht_all : ∀ x ∈ t, isTagChar x = true := by
    intro x hx
    simpa [isTagChar] using ht.2 x hx
  have hsplit := takeWhileSplit_append isTagChar t 32
    (CommandBody.encode (.compress .deflate) ++ [13, 10]) ht_all (by decide)
  rw [show Command.encode ⟨t, .compress .deflate⟩ =
    t ++ 32 :: (CommandBody.encode (.compress .deflate) ++ [13, 10]) from rfl]
  rw [parseCommand, hsplit]
  simp [List.isEmpty_iff, ht_ne, CommandBody.encode, CompressionAlgorithm.encode,
    List.append_assoc, compress, algorithm, tagNoCase_append_self]

theorem compress_ok_iff (input rem : List Nat) (v : CommandBody) :
    compress input = .ok rem v ↔
      v = .compress .deflate ∧
        ∃ p, input = p ++ rem ∧
          p.map toLowerByte =
            [99, 111, 109, 112, 114, 101, 115, 115, 32,
              100, 101, 102, 108, 97, 116, 101] := by
  constructor
  · intro h
    simp only [compress] at h
    cases h1 : tagNoCase compressSpBytes input with
    | matched r1 =>
      rw [h1] at h
      simp only [algorithm] at h
      cases h2 : tagNoCase deflateBytes r1 with
      | matched r2 =>
        rw [h2] at h
        injection h with h3 h4
        obtain ⟨p1, hp1, hm1⟩ := (tagNoCase_matched_iff compressSpBytes input r1).mp h1
        obtain ⟨p2, hp2, hm2⟩ := (tagNoCase_matched_iff deflateBytes r1 r2).mp h2
        refine ⟨h4.symm, p1 ++ p2, ?_, ?_⟩
        · rw [hp1, hp2, List.append_assoc, h3]
        · rw [List.map_append, hm1, hm2]
          decide
      | mismatch => rw [h2] at h; simp at h
      | short n => rw [h2] at h; simp at h
    | mismatch => rw [h1] at h; simp at h
    | short n => rw [h1] at h; simp at h
  · rintro ⟨rfl, p, rfl, hmap⟩
    have hlen : p.length = 16 := by
      have := congrArg List.length hmap
      simpa using this
    have hsplit : p = p.take 9 ++ p.drop 9 := (List.take_append_drop 9 p).symm
    have hm1 : (p.take 9).map toLowerByte = compressSpBytes.map toLowerByte := by
      rw [List.map_take, hmap]
      decide
    have hm2 : (p.drop 9).map toLowerByte = deflateBytes.map toLowerByte := by
      rw [List.map_drop, hmap]
      decide
    have h1 : tagNoCase compressSpBytes (p ++ rem) = .matched (p.drop 9 ++ rem) := by
      rw [tagNoCase_matched_iff]
      exact ⟨p.take 9, by rw [← List.append_assoc, ← hsplit], hm1⟩
    have h2 : tagNoCase deflateBytes (p.drop 9 ++ rem) = .matched rem :=
      (tagNoCase_matched_iff deflateBytes _ rem).mpr ⟨p.drop 9, rfl, hm2⟩
    simp only [compress, h1, algorithm, h2]

/-! ## Claims -/

/-- **C2**: for every validated primitive type among `Atom`, `AtomExt`,
`Quoted`, `Literal`, `Tag`, `Text`, `QuotedChar`, and every input of the
carrier kind, the checked constructor succeeds exactly when `verify`
holds, and on success the stored carrier is exactly the input. -/
theorem C2_tryFrom_iff_verify :
    ∀ s : List Nat,
      ((Atom.tryFromStr s).isOk = Atom.verify s ∧
        (Atom.verify s = true → Atom.tryFromStr s = .ok ⟨.borrowed s⟩) ∧
        (Atom.tryFromString s).isOk = Atom.verify s ∧
        (Atom.verify s = true → Atom.tryFromString s = .ok ⟨.owned s⟩)) ∧
      ((AtomExt.tryFromStr s).isOk = AtomExt.verify s ∧
        (AtomExt.verify s = true → AtomExt.tryFromStr s = .ok ⟨.borrowed s⟩) ∧
        (AtomExt.tryFromString s).isOk = AtomExt.verify s ∧
        (AtomExt.verify s = true → AtomExt.tryFromString s = .ok ⟨.owned s⟩)) ∧
      ((Quoted.tryFromStr s).isOk = Quoted.verify s ∧
        (Quoted.verify s = true → Quoted.tryFromStr s = .ok ⟨.borrowed s⟩) ∧
        (Quoted.tryFromString s).isOk = Quoted.verify s ∧
        (Quoted.verify s = true → Quoted.tryFromString s = .ok ⟨.owned s⟩)) ∧
      ((Literal.tryFromBytes s).isOk = Literal.verify s ∧
        (Literal.verify s = true → Literal.tryFromBytes s = .ok ⟨.borrowed s⟩) ∧
        (Literal.tryFromVec s).isOk = Literal.verify s ∧
        (Literal.verify s = true → Literal.tryFromVec s = .ok ⟨.owned s⟩)) ∧
      ((Tag.tryFromStr s).isOk = Tag.verify s ∧
        (Tag.verify s = true → Tag.tryFromStr s = .ok ⟨.borrowed s⟩) ∧
        (Tag.tryFromString s).isOk = Tag.verify s ∧
        (Tag.verify s = true → Tag.tryFromString s = .ok ⟨.owned s⟩)) ∧
      ((Text.tryFromStr s).isOk = Text.verify s ∧
        (Text.verify s = true → Text.tryFromStr s = .ok ⟨.borrowed s⟩) ∧
        (Text.tryFromString s).isOk = Text.verify s ∧
        (Text.verify s = true → Text.tryFromString s = .ok ⟨.owned s⟩)) ∧
      ∀ ch : Nat,
        (QuotedChar.tryFromChar ch).isOk = QuotedChar.verify ch ∧
        (QuotedChar.verify ch = true → QuotedChar.tryFromChar ch = .ok ⟨ch⟩) := by
  intro s
  refine ⟨⟨rsResult_if_isOk _ _, ?_, rsResult_if_isOk _ _, ?_⟩,
    ⟨rsResult_if_isOk _ _, ?_, rsResult_if_isOk _ _, ?_⟩,
    ⟨rsResult_if_isOk _ _, ?_, rsResult_if_isOk _ _, ?_⟩,
    ⟨rsResult_if_isOk _ _, ?_, rsResult_if_isOk _ _, ?_⟩,
    ⟨rsResult_if_isOk _ _, ?_, rsResult_if_isOk _ _, ?_⟩,
    ⟨rsResult_if_isOk _ _, ?_, rsResult_if_isOk _ _, ?_⟩,
    fun ch => ⟨rsResult_if_isOk _ _, ?_⟩⟩ <;>
    · intro h
      simp only [Atom.tryFromStr, Atom.tryFromString, AtomExt.tryFromStr,
        AtomExt.tryFromString, Quoted.tryFromStr, Quoted.tryFromString,
        Literal.tryFromBytes, Literal.tryFromVec, Tag.tryFromStr,
        Tag.tryFromString, Text.tryFromStr, Text.tryFromString,
        QuotedChar.tryFromChar, h, if_true]

/-- **C2** witness: concrete successful constructions with the carrier
stored verbatim. -/
theorem C2_tryFrom_iff_verify_witness :
    Atom.tryFromStr [65] = .ok ⟨.borrowed [65]⟩ ∧
      QuotedChar.tryFromChar 65 = .ok ⟨65⟩ :=
  ⟨(C2_tryFrom_iff_verify [65]).1.2.1 (by decide),
    ((C2_tryFrom_iff_verify [65]).2.2.2.2.2.2 65).2 (by decide)⟩

/-- **C3** counterexample: a NUL-free byte sequence of length `2 ^ 32`
(too long for the 32-bit protocol counter) is accepted by
`Literal::try_from`, refuting the claimed length check. -/
theorem C3_length_unchecked_counterexample :
    Literal.tryFromBytes hugeNulFree = .ok ⟨.borrowed hugeNulFree⟩ ∧
      hugeNulFree.length = 2 ^ 32 := by
  have hv : Literal.verify hugeNulFree = true := by
    rw [hugeNulFree, Literal.verify, List.all_eq_true]
    intro x hx
    have hx65 := List.eq_of_mem_replicate hx
    subst hx65
    decide
  exact ⟨by rw [Literal.tryFromBytes, if_pos hv],
    by rw [hugeNulFree, List.length_replicate]⟩

/-- **C3** (amended): `Literal::try_from(b)` succeeds iff `b` contains no
NUL byte; the length is not checked against the 32-bit counter. -/
theorem C3_literal_tryFrom_iff_no_nul (b : List Nat) (hb : ∀ x ∈ b, x < 256) :
    ((Literal.tryFromBytes b).isOk = true ↔ 0 ∉ b) ∧
      ((Literal.tryFromVec b).isOk = true ↔ 0 ∉ b) := by
  have hv : Literal.verify b = true ↔ 0 ∉ b := by
    simp only [Literal.verify, List.all_eq_true, is_char8, decide_eq_true_eq]
    constructor
    · intro h h0
      have := h 0 h0
      omega
    · intro h x hx
      have hlt := hb x hx
      have hx0 : x ≠ 0 := fun hh => h (hh ▸ hx)
      omega
  constructor
  · rw [show (Literal.tryFromBytes b).isOk = Literal.verify b from
      rsResult_if_isOk _ _]
    exact hv
  · rw [show (Literal.tryFromVec b).isOk = Literal.verify b from
      rsResult_if_isOk _ _]
    exact hv

/-- **C3** witness: the amended equivalence at a concrete byte sequence. -/
theorem C3_literal_tryFrom_iff_no_nul_witness :
    ((Literal.tryFromBytes [1]).isOk = true ↔ 0 ∉ ([1] : List Nat)) ∧
      ((Literal.tryFromVec [1]).isOk = true ↔ 0 ∉ ([1] : List Nat)) :=
  C3_literal_tryFrom_iff_no_nul [1] (by decide)

/-- **C4**: `IString::try_from` prefers the quoted representation, falls
back to literal exactly when quoting is impossible, fails when neither
predicate holds; `"AAA"` becomes quoted and `"line\r\n"` literal. -/
theorem C4_istring_selection :
    ∀ s : List Nat,
      (Quoted.verify s = true →
        IString.tryFromStr s = .ok (.quoted ⟨.borrowed s⟩)) ∧
      (Quoted.verify s = false → Literal.verify s = true →
        IString.tryFromStr s = .ok (.literal ⟨.borrowed s⟩)) ∧
      (Quoted.verify s = false → Literal.verify s = false →
        IString.tryFromStr s = .err ()) ∧
      IString.tryFromStr [65, 65, 65] = .ok (.quoted ⟨.borrowed [65, 65, 65]⟩) ∧
      IString.tryFromStr [108, 105, 110, 101, 13, 10] =
        .ok (.literal ⟨.borrowed [108, 105, 110, 101, 13, 10]⟩) := by
  intro s
  refine ⟨?_, ?_, ?_, by decide, by decide⟩
  · intro h
    simp [IString.tryFromStr, Quoted.tryFromStr, h]
  · intro hq hl
    simp [IString.tryFromStr, Quoted.tryFromStr, Literal.tryFromBytes, hq, hl]
  · intro hq hl
    simp [IString.tryFromStr, Quoted.tryFromStr, Literal.tryFromBytes, hq, hl]

/-- **C4** witness: a CR byte cannot be quoted and becomes a literal. -/
theorem C4_istring_selection_witness :
    IString.tryFromStr [13] = .ok (.literal ⟨.borrowed [13]⟩) :=
  (C4_istring_selection [13]).2.1 (by decide) (by decide)

/-- **C6** counterexample: inputs rejected by different predicates at
different byte offsets (offset 0 for `" "`, offset 1 for `A"`) return the
very same information-free unit error, so the error identifies neither
the predicate nor the offset. -/
theorem C6_unit_error_counterexample :
    Atom.tryFromStr [32] = .err () ∧
      Atom.tryFromStr [65, 34] = .err () ∧
      Atom.tryFromStr [32] = Atom.tryFromStr [65, 34] ∧
      Charset.tryFromStr [13] = .err () := by
  decide

/-- **C6** (amended): a rejected checked construction returns the unit
error `Err(())`, which carries no predicate or offset information. -/
theorem C6_unit_error (s : List Nat) :
    (Atom.verify s = false → Atom.tryFromStr s = .err ()) ∧
      (Tag.verify s = false → Tag.tryFromStr s = .err ()) ∧
      (Atom.verify s = false → Quoted.verify s = false →
        Charset.tryFromStr s = .err ()) := by
  refine ⟨?_, ?_, ?_⟩
  · intro h
    simp [Atom.tryFromStr, h]
  · intro h
    simp [Tag.tryFromStr, h]
  · intro ha hq
    simp [Charset.tryFromStr, Atom.tryFromStr, Quoted.tryFromStr, ha, hq]

/-- **C6** witness: the unit error at a concrete rejected input. -/
theorem C6_unit_error_witness :
    Atom.tryFromStr [13] = .err () ∧ Tag.tryFromStr [13] = .err () ∧
      Charset.tryFromStr [13] = .err () :=
  ⟨(C6_unit_error [13]).1 (by decide), (C6_unit_error [13]).2.1 (by decide),
    (C6_unit_error [13]).2.2 (by decide) (by decide)⟩

/-- **C9**: the empty string is accepted by `Quoted`, `Literal` and
`IString` (as an empty quoted) but rejected by `Atom`, `AtomExt`, `Tag`
and `Text`. -/
theorem C9_empty_string :
    Quoted.tryFromStr [] = .ok ⟨.borrowed []⟩ ∧
      Literal.tryFromBytes [] = .ok ⟨.borrowed []⟩ ∧
      IString.tryFromStr [] = .ok (.quoted ⟨.borrowed []⟩) ∧
      Atom.tryFromStr [] = .err () ∧
      AtomExt.tryFromStr [] = .err () ∧
      Tag.tryFromStr [] = .err () ∧
      Text.tryFromStr [] = .err () := by
  decide

/-- **C5**: the compress sub-parser accepts exactly
`"COMPRESS" SP "DEFLATE"` case-insensitively with a single space,
returning `Compress { algorithm: Deflate }` and the bytes after
`DEFLATE` as remainder; `compres deflate ` fails at offset 0 and a
double space fails (at offset 9). -/
theorem C5_compress_exact :
    (∀ (input rem : List Nat) (v : CommandBody),
        compress input = .ok rem v ↔
          v = .compress .deflate ∧
            ∃ p, input = p ++ rem ∧
              p.map toLowerByte =
                [99, 111, 109, 112, 114, 101, 115, 115, 32,
                  100, 101, 102, 108, 97, 116, 101]) ∧
      compress [99, 111, 109, 112, 114, 101, 115, 32,
        100, 101, 102, 108, 97, 116, 101, 32] = .err 0 ∧
      compress [67, 79, 77, 80, 82, 69, 83, 83, 32, 32,
        68, 69, 70, 76, 65, 84, 69] = .err 9 :=
  ⟨compress_ok_iff, by decide, by decide⟩

/-- **C7**: for every outcome of the pseudorandom source, `Tag::random`
yields an 8-character ASCII-alphanumeric carrier, which therefore
satisfies `Tag::verify`. -/
theorem C7_tag_random_valid (g : Nat → Nat) :
    (Tag.random g).inner.content.length = 8 ∧
      (∀ x ∈ (Tag.random g).inner.content, isAlphanumericByte x = true) ∧
      Tag.verify (Tag.random g).inner.content = true := by
  have key : ∀ r, r < 62 →
      isAlphanumericByte (alnumCharset.getD r 65) = true ∧
        (is_astring_char (alnumCharset.getD r 65) &&
          alnumCharset.getD r 65 != 43) = true := by
    decide
  have hmem : ∀ x ∈ (Tag.random g).inner.content,
      ∃ r, r < 62 ∧ x = alnumCharset.getD r 65 := by
    intro x hx
    simp only [Tag.random, Cow.content, List.mem_ofFn] at hx
    obtain ⟨i, hi⟩ := hx
    refine ⟨g i.val % 62, Nat.mod_lt _ (by decide), ?_⟩
    rw [← hi]
    rfl
  refine ⟨by simp [Tag.random, Cow.content], ?_, ?_⟩
  · intro x hx
    obtain ⟨r, hr, rfl⟩ := hmem x hx
    exact (key r hr).1
  · simp only [Tag.verify, Bool.and_eq_true, List.all_eq_true]
    refine ⟨?_, ?_⟩
    · have h8 : (Tag.random g).inner.content.length = 8 := by
        simp [Tag.random, Cow.content]
      cases hl : (Tag.random g).inner.content with
      | nil => rw [hl] at h8; simp at h8
      | cons a as => simp
    · intro x hx
      obtain ⟨r, hr, rfl⟩ := hmem x hx
      have h2 := (key r hr).2
      simp only [Bool.and_eq_true] at h2
      exact h2

/-- **C7** witness: a concrete outcome of the source gives a valid
8-character alphanumeric tag. -/
theorem C7_tag_random_valid_witness :
    (Tag.random fun _ => 0).inner.content.length = 8 ∧
      Tag.verify (Tag.random fun _ => 0).inner.content = true ∧
      isAlphanumericByte 65 = true :=
  ⟨(C7_tag_random_valid fun _ => 0).1,
    (C7_tag_random_valid fun _ => 0).2.2,
    (C7_tag_random_valid fun _ => 0).2.1 65 (by decide)⟩

/-- **C8**: the borrowed and owned checked constructors produce values
that are equal under content equality, and hashing factors through the
carrier content, for `Atom`, `AtomExt`, `Quoted`, `Literal`, `Tag`,
`Text`. -/
theorem C8_eq_hash_by_content :
    ∀ s : List Nat,
      ((Atom.verify s = true →
          Atom.tryFromStr s = .ok ⟨.borrowed s⟩ ∧
            Atom.tryFromString s = .ok ⟨.owned s⟩ ∧
            Atom.beq ⟨.borrowed s⟩ ⟨.owned s⟩ = true) ∧
        ∀ (f : List Nat → Nat) (a b : Atom),
          Atom.beq a b = true → Atom.hashWith f a = Atom.hashWith f b) ∧
      ((AtomExt.verify s = true →
          AtomExt.tryFromStr s = .ok ⟨.borrowed s⟩ ∧
            AtomExt.tryFromString s = .ok ⟨.owned s⟩ ∧
            AtomExt.beq ⟨.borrowed s⟩ ⟨.owned s⟩ = true) ∧
        ∀ (f : List Nat → Nat) (a b : AtomExt),
          AtomExt.beq a b = true → AtomExt.hashWith f a = AtomExt.hashWith f b) ∧
      ((Quoted.verify s = true →
          Quoted.tryFromStr s = .ok ⟨.borrowed s⟩ ∧
            Quoted.tryFromString s = .ok ⟨.owned s⟩ ∧
            Quoted.beq ⟨.borrowed s⟩ ⟨.owned s⟩ = true) ∧
        ∀ (f : List Nat → Nat) (a b : Quoted),
          Quoted.beq a b = true → Quoted.hashWith f a = Quoted.hashWith f b) ∧
      ((Literal.verify s = true →
          Literal.tryFromBytes s = .ok ⟨.borrowed s⟩ ∧
            Literal.tryFromVec s = .ok ⟨.owned s⟩ ∧
            Literal.beq ⟨.borrowed s⟩ ⟨.owned s⟩ = true) ∧
        ∀ (f : List Nat → Nat) (a b : Literal),
          Literal.beq a b = true → Literal.hashWith f a = Literal.hashWith f b) ∧
      ((Tag.verify s = true →
          Tag.tryFromStr s = .ok ⟨.borrowed s⟩ ∧
            Tag.tryFromString s = .ok ⟨.owned s⟩ ∧
            Tag.beq ⟨.borrowed s⟩ ⟨.owned s⟩ = true) ∧
        ∀ (f : List Nat → Nat) (a b : Tag),
          Tag.beq a b = true → Tag.hashWith f a = Tag.hashWith f b) ∧
      ((Text.verify s = true →
          Text.tryFromStr s = .ok ⟨.borrowed s⟩ ∧
            Text.tryFromString s = .ok ⟨.owned s⟩ ∧
            Text.beq ⟨.borrowed s⟩ ⟨.owned s⟩ = true) ∧
        ∀ (f : List Nat → Nat) (a b : Text),
          Text.beq a b = true → Text.hashWith f a = Text.hashWith f b) := by
  intro s
  refine ⟨⟨?_, ?_⟩, ⟨?_, ?_⟩, ⟨?_, ?_⟩, ⟨?_, ?_⟩, ⟨?_, ?_⟩, ⟨?_, ?_⟩⟩
  · intro h
    exact ⟨by simp [Atom.tryFromStr, h], by simp [Atom.tryFromString, h],
      by simp [Atom.beq, Cow.content]⟩
  · intro f a b hab
    have hc : a.inner.content = b.inner.content := by simpa [Atom.beq] using hab
    simp [Atom.hashWith, hc]
  · intro h
    exact ⟨by simp [AtomExt.tryFromStr, h], by simp [AtomExt.tryFromString, h],
      by simp [AtomExt.beq, Cow.content]⟩
  · intro f a b hab
    have hc : a.inner.content = b.inner.content := by simpa [AtomExt.beq] using hab
    simp [AtomExt.hashWith, hc]
  · intro h
    exact ⟨by simp [Quoted.tryFromStr, h], by simp [Quoted.tryFromString, h],
      by simp [Quoted.beq, Cow.content]⟩
  · intro f a b hab
    have hc : a.inner.content = b.inner.content := by simpa [Quoted.beq] using hab
    simp [Quoted.hashWith, hc]
  · intro h
    exact ⟨by simp [Literal.tryFromBytes, h], by simp [Literal.tryFromVec, h],
      by simp [Literal.beq, Cow.content]⟩
  · intro f a b hab
    have hc : a.inner.content = b.inner.content := by simpa [Literal.beq] using hab
    simp [Literal.hashWith, hc]
  · intro h
    exact ⟨by simp [Tag.tryFromStr, h], by simp [Tag.tryFromString, h],
      by simp [Tag.beq, Cow.content]⟩
  · intro f a b hab
    have hc : a.inner.content = b.inner.content := by simpa [Tag.beq] using hab
    simp [Tag.hashWith, hc]
  · intro h
    exact ⟨by simp [Text.tryFromStr, h], by simp [Text.tryFromString, h],
      by simp [Text.beq, Cow.content]⟩
  · intro f a b hab
    have hc : a.inner.content = b.inner.content := by simpa [Text.beq] using hab
    simp [Text.hashWith, hc]

/-- **C8** witness: borrowed/owned constructions of `"A"` compare equal
and hash alike. -/
theorem C8_eq_hash_by_content_witness :
    Atom.beq ⟨.borrowed [65]⟩ ⟨.owned [65]⟩ = true ∧
      Atom.hashWith List.length ⟨.borrowed [65]⟩ =
        Atom.hashWith List.length ⟨.owned [65]⟩ :=
  ⟨((C8_eq_hash_by_content [65]).1.1 (by decide)).2.2,
    (C8_eq_hash_by_content [65]).1.2 List.length ⟨.borrowed [65]⟩ ⟨.owned [65]⟩
      (by decide)⟩

/-- **C10**: `SortAlgorithm::from` yields `Display` exactly when the
atom's lowercased content is `"display"`, otherwise `Other` preserving
the atom; formatting writes `DISPLAY` resp. the preserved content. -/
theorem C10_sort_algorithm (a : Atom) (_ha : Atom.verify a.inner.content = true) :
    (SortAlgorithm.fromAtom a = .display ↔
        a.inner.content.map toLowerByte = displayLowerBytes) ∧
      (a.inner.content.map toLowerByte ≠ displayLowerBytes →
        SortAlgorithm.fromAtom a = .other ⟨a⟩) ∧
      SortAlgorithm.fmtBytes .display = displayUpperBytes ∧
      (∀ o : SortAlgorithmOther,
        SortAlgorithm.fmtBytes (.other o) = o.atom.inner.content) := by
  refine ⟨?_, ?_, rfl, fun o => rfl⟩
  · unfold SortAlgorithm.fromAtom
    by_cases h : a.inner.content.map toLowerByte = displayLowerBytes
    · simp [h]
    · simp [h]
  · intro h
    simp [SortAlgorithm.fromAtom, h]

/-- **C10** witness: the atom `DISPLAY` maps to the `Display` variant. -/
theorem C10_sort_algorithm_witness :
    SortAlgorithm.fromAtom ⟨.borrowed [68, 73, 83, 80, 76, 65, 89]⟩ = .display :=
  ((C10_sort_algorithm ⟨.borrowed [68, 73, 83, 80, 76, 65, 89]⟩
    (by decide)).1).mpr (by decide)

/-- **C1** counterexample: two distinct well-formed greetings — one with
code `ALERT` and text `hi`, one with no code and text `[ALERT] hi` —
encode to the same bytes `* OK [ALERT] hi\r\n`, so no parser can
round-trip both; the parser returns the coded greeting for the uncoded
one's encoding. -/
theorem C1_roundtrip_counterexample :
    Greeting.wf ⟨.ok, none, [91, 65, 76, 69, 82, 84, 93, 32, 104, 105]⟩ = true ∧
      Greeting.wf ⟨.ok, some .alert, [104, 105]⟩ = true ∧
      Greeting.encode ⟨.ok, none, [91, 65, 76, 69, 82, 84, 93, 32, 104, 105]⟩ =
        Greeting.encode ⟨.ok, some .alert, [104, 105]⟩ ∧
      (⟨.ok, none, [91, 65, 76, 69, 82, 84, 93, 32, 104, 105]⟩ : Greeting) ≠
        ⟨.ok, some .alert, [104, 105]⟩ ∧
      parseGreeting
          (Greeting.encode
            ⟨.ok, none, [91, 65, 76, 69, 82, 84, 93, 32, 104, 105]⟩) =
        some ([], ⟨.ok, some .alert, [104, 105]⟩) := by
  decide

/-- **C1** (amended): parsing the encoding returns the original value
with empty remainder for every well-formed greeting that has a response
code or whose text does not begin with `[`, and for every well-formed
COMPRESS command. -/
theorem C1_roundtrip (g : Greeting) (hg : g.wf = true)
    (hc : g.code ≠ none ∨ g.text.head? ≠ some 91) :
    parseGreeting g.encode = some ([], g) ∧
      ∀ t : List Nat, Tag.verify t = true → ∀ alg : CompressionAlgorithm,
        parseCommand (Command.encode ⟨t, .compress alg⟩) =
          some ([], ⟨t, .compress alg⟩) := by
  refine ⟨parseGreeting_encode g hg hc, ?_⟩
  intro t ht alg
  cases alg
  exact parseCommand_encode t ht

/-- **C1** witness: a concrete greeting and a concrete COMPRESS command
round-trip. -/
theorem C1_roundtrip_witness :
    parseGreeting (Greeting.encode ⟨.ok, none, [104, 105]⟩) =
        some ([], ⟨.ok, none, [104, 105]⟩) ∧
      parseCommand (Command.encode ⟨[65], .compress .deflate⟩) =
        some ([], ⟨[65], .compress .deflate⟩) :=
  ⟨(C1_roundtrip ⟨.ok, none, [104, 105]⟩ (by decide) (.inr (by decide))).1,
    (C1_roundtrip ⟨.ok, none, [104, 105]⟩ (by decide) (.inr (by decide))).2
      [65] (by decide) .deflate⟩

end ImapCodec
